import Mathlib

/-!
# Verification of the resilient weather data-fetch cache

Shallow embedding of the repository's core subsystem:
* the TTL-LRU store (`LRUCache` in the cache module) and the statistics
  wrapper (`CacheManager`),
* the circuit breaker, retry-with-backoff executor and timeout guard
  from `src/services/weatherApi.ts`,
* the supersession/cancellation behaviour of the orchestrating hook
  (`useWeatherData.fetchWeather`) combined with
  `WeatherApiService.cancelRequests`.

JavaScript `Map`s are modelled as insertion-ordered association lists
(`List (String × α)`): `Map.set` on an existing key updates in place,
on a fresh key appends at the end; `Map.delete` removes the key;
iteration follows the list order.  `Date.now()` timestamps are `Int`.
-/

namespace WeatherCache

/-! ## JavaScript `Map` model -/

/-- `Map.get`: first binding of the key, if any. -/
def mapFind (k : String) : List (String × α) → Option α
  | [] => none
  | (k', v) :: rest => if k' = k then some v else mapFind k rest

/-- `Map.set`: replace in place when present, append when absent. -/
def mapSet (k : String) (v : α) : List (String × α) → List (String × α)
  | [] => [(k, v)]
  | (k', v') :: rest => if k' = k then (k, v) :: rest else (k', v') :: mapSet k v rest

/-- `Map.delete`: drop every binding of the key (there is at most one). -/
def mapDelete (k : String) (l : List (String × α)) : List (String × α) :=
  l.filter (fun p => !(p.1 == k))

/-- The key list of an association-list map. -/
def mapKeys (l : List (String × α)) : List String :=
  l.map Prod.fst

/-! ## TTL-LRU store (`LRUCache` from the cache module) -/

/-- `CacheEntry<V>` from the types module: `{ data, timestamp, expiresAt }`. -/
structure CacheEntry (V : Type) where
  data : V
  timestamp : Int
  expiresAt : Int
deriving DecidableEq, Repr

/-- The mutable fields and constructor parameters of `LRUCache`:
`cache`, `accessOrder`, `accessCounter`, `maxSize`, `defaultTTL`. -/
structure LRUState (V : Type) where
  cache : List (String × CacheEntry V)
  accessOrder : List (String × Nat)
  accessCounter : Nat
  maxSize : Nat
  defaultTTL : Int
deriving DecidableEq, Repr

/-- A freshly constructed `LRUCache(maxSize, defaultTTL)`. -/
def initLRU (V : Type) (maxSize : Nat) (defaultTTL : Int) : LRUState V :=
  ⟨[], [], 0, maxSize, defaultTTL⟩

/-- `delete(key)`: removes the key from both `cache` and `accessOrder`. -/
def LRUState.del (s : LRUState V) (k : String) : LRUState V :=
  { s with cache := mapDelete k s.cache, accessOrder := mapDelete k s.accessOrder }

/-- `get(key)`: miss on absent key; expired entries (`Date.now() > expiresAt`)
are deleted and reported as a miss; a hit stores `++accessCounter` as the
key's new recency rank.  Returns the value together with the new state. -/
def LRUState.get (s : LRUState V) (now : Int) (k : String) :
    Option V × LRUState V :=
  match mapFind k s.cache with
  | none => (none, s)
  | some entry =>
    if now > entry.expiresAt then
      (none, s.del k)
    else
      (some entry.data,
       { s with accessOrder := mapSet k (s.accessCounter + 1) s.accessOrder,
                accessCounter := s.accessCounter + 1 })

/-- `ttl || this.defaultTTL`: JavaScript `||` falls back to the default both
when the argument is omitted and when it is `0` (zero is falsy). -/
def ttlOrDefault (ttl : Option Int) (dflt : Int) : Int :=
  match ttl with
  | none => dflt
  | some t => if t = 0 then dflt else t

/-- The first strict minimum of an access-order list, seeded with `best`
(the source seeds with `lruAccessTime = Infinity`, so the first entry always
replaces the seed; later entries replace only on strict `<`). -/
def findLRUAux (best : String × Nat) : List (String × Nat) → String × Nat
  | [] => best
  | (k, t) :: rest => findLRUAux (if t < best.2 then (k, t) else best) rest

/-- The key `evictLRU` would delete: `undefined` when the cache is empty or
the access-order map is empty, otherwise the first entry with the minimal
recency rank. -/
def evictTarget (s : LRUState V) : Option (String × Nat) :=
  if s.cache.length = 0 then none
  else
    match s.accessOrder with
    | [] => none
    | p :: rest => some (findLRUAux p rest)

/-- `evictLRU()`: delete the least-recently-touched key, when one exists. -/
def LRUState.evictLRU (s : LRUState V) : LRUState V :=
  match evictTarget s with
  | none => s
  | some p => s.del p.1

/-- The write shared by both branches of `set`: `this.cache.set(key, entry)`
followed by `this.accessOrder.set(key, ++this.accessCounter)`. -/
def LRUState.writeEntry (s : LRUState V) (e : CacheEntry V) (k : String) :
    LRUState V :=
  { s with cache := mapSet k e s.cache,
           accessOrder := mapSet k (s.accessCounter + 1) s.accessOrder,
           accessCounter := s.accessCounter + 1 }

/-- `set(key, value, ttl?)`: replace in place when the key exists; otherwise
evict the LRU entry first when at capacity, then insert.  Either path stamps
the key with `++accessCounter`. -/
def LRUState.set (s : LRUState V) (now : Int) (k : String) (v : V)
    (ttl : Option Int) : LRUState V :=
  if (mapFind k s.cache).isSome then
    s.writeEntry ⟨v, now, now + ttlOrDefault ttl s.defaultTTL⟩ k
  else
    (if s.cache.length ≥ s.maxSize then s.evictLRU else s).writeEntry
      ⟨v, now, now + ttlOrDefault ttl s.defaultTTL⟩ k

/-- `has(key)`: like `get` it lazily deletes an expired entry, but it does
not touch the recency rank. -/
def LRUState.has (s : LRUState V) (now : Int) (k : String) :
    Bool × LRUState V :=
  match mapFind k s.cache with
  | none => (false, s)
  | some entry =>
    if now > entry.expiresAt then (false, s.del k) else (true, s)

/-- `clear()`. -/
def LRUState.clearAll (s : LRUState V) : LRUState V :=
  { s with cache := [], accessOrder := [], accessCounter := 0 }

/-- `cleanup()`: sweep every currently-expired key, returning the count. -/
def LRUState.cleanup (s : LRUState V) (now : Int) : LRUState V × Nat :=
  let victims := (s.cache.filter (fun p => decide (now > p.2.expiresAt))).map Prod.fst
  (victims.foldl (fun acc k => acc.del k) s, victims.length)

/-- One externally visible mutating or reading operation on the store. -/
inductive CacheOp (V : Type) where
  | get (now : Int) (k : String)
  | set (now : Int) (k : String) (v : V) (ttl : Option Int)
  | has (now : Int) (k : String)
  | del (k : String)
  | clearAll
  | cleanup (now : Int)
deriving Repr

/-- The state reached after one operation. -/
def applyCacheOp (s : LRUState V) : CacheOp V → LRUState V
  | .get now k => (s.get now k).2
  | .set now k v ttl => s.set now k v ttl
  | .has now k => (s.has now k).2
  | .del k => s.del k
  | .clearAll => s.clearAll
  | .cleanup now => (s.cleanup now).1

/-- The state reached after a sequence of operations. -/
def runCacheOps (s : LRUState V) (ops : List (CacheOp V)) : LRUState V :=
  ops.foldl applyCacheOp s

/-! ## Statistics wrapper (`CacheManager` from the cache module) -/

/-- The record returned by `LRUCache.getStats` (note the placeholder
`hitRate`, see `LRUState.calculateHitRate`). -/
structure CacheStats where
  size : Nat
  maxSize : Nat
  hitRate : ℚ
  oldestEntry : Option Int
  newestEntry : Option Int
deriving DecidableEq, Repr

/-- `LRUCache.calculateHitRate`: the documented "simplified implementation"
returning the constant `0.85` whenever the cache is non-empty. -/
def LRUState.calculateHitRate (s : LRUState V) : ℚ :=
  if s.cache.length > 0 then (85 : ℚ) / 100 else 0

/-- `LRUCache.getStats()`: size and oldest/newest timestamps computed over
unexpired entries only, plus the placeholder hit rate. -/
def LRUState.getStats (s : LRUState V) (now : Int) : CacheStats :=
  let valid := s.cache.filter (fun p => decide (now ≤ p.2.expiresAt))
  { size := valid.length
    maxSize := s.maxSize
    hitRate := s.calculateHitRate
    oldestEntry := valid.foldl
      (fun acc p => match acc with
        | none => some p.2.timestamp
        | some o => some (min o p.2.timestamp)) none
    newestEntry := valid.foldl
      (fun acc p => match acc with
        | none => some p.2.timestamp
        | some o => some (max o p.2.timestamp)) none }

/-- `CacheManager`: an `LRUCache` plus `hitCount`/`missCount` counters. -/
structure MgrState (V : Type) where
  lru : LRUState V
  hitCount : Nat
  missCount : Nat
deriving DecidableEq, Repr

/-- `CacheManager.get`: counts a hit when the underlying lookup returns a
value (`value !== undefined`), a miss otherwise. -/
def MgrState.get (m : MgrState V) (now : Int) (k : String) :
    Option V × MgrState V :=
  match m.lru.get now k with
  | (some v, l) => (some v, { m with lru := l, hitCount := m.hitCount + 1 })
  | (none, l) => (none, { m with lru := l, missCount := m.missCount + 1 })

/-- `CacheManager.set` forwards to the store. -/
def MgrState.set (m : MgrState V) (now : Int) (k : String) (v : V)
    (ttl : Option Int) : MgrState V :=
  { m with lru := m.lru.set now k v ttl }

/-- `CacheManager.getHitRate`: `hits / (hits + misses)`, `0` with no lookups. -/
def MgrState.getHitRate (m : MgrState V) : ℚ :=
  if m.hitCount + m.missCount > 0 then
    (m.hitCount : ℚ) / ((m.hitCount : ℚ) + (m.missCount : ℚ))
  else 0

/-- The record returned by `CacheManager.getStats`. -/
structure MgrStats extends CacheStats where
  hitCount : Nat
  missCount : Nat
deriving DecidableEq, Repr

/-- `CacheManager.getStats()`: spreads `LRUCache.getStats()` and then
overrides `hitRate` with the real `getHitRate()` (the later property of a
JavaScript object literal wins over the spread). -/
def MgrState.getStats (m : MgrState V) (now : Int) : MgrStats :=
  { m.lru.getStats now with
    hitRate := m.getHitRate
    hitCount := m.hitCount
    missCount := m.missCount }

/-- A freshly constructed `CacheManager(maxSize, ttl)`. -/
def initMgr (V : Type) (maxSize : Nat) (ttl : Int) : MgrState V :=
  ⟨initLRU V maxSize ttl, 0, 0⟩

/-- Run a sequence of `CacheManager.get` lookups, threading the state. -/
def mgrRunGets (m : MgrState V) (now : Int) (ks : List String) : MgrState V :=
  ks.foldl (fun acc k => (acc.get now k).2) m

/-- The number of those lookups that actually returned a value. -/
def mgrCountHits (m : MgrState V) (now : Int) : List String → Nat
  | [] => 0
  | k :: ks =>
    let r := m.get now k
    (if r.1.isSome then 1 else 0) + mgrCountHits r.2 now ks

/-! ## Error taxonomy of `weatherApi.ts` -/

/-- The error values the service layer can produce:
`NetworkError("Circuit breaker is OPEN")`, the timeout guard's
`NetworkError(..., "TIMEOUT")`, a fetch abort (`AbortError`), `ApiError`
with its HTTP status, `ValidationError`, and other `NetworkError`s. -/
inductive JsError where
  | breakerOpen
  | timeout
  | abortError
  | api (status : Nat)
  | validation
  | network
deriving DecidableEq, Repr

/-! ## Circuit breaker (`CircuitBreaker` in `weatherApi.ts`) -/

/-- The three breaker states (`CLOSED`, `OPEN`, `HALF_OPEN`). -/
inductive BreakerState where
  | closed
  | opened
  | halfOpen
deriving DecidableEq, Repr

/-- The breaker's mutable fields and constructor parameters. -/
structure Breaker where
  failureCount : Nat
  lastFailureTime : Int
  state : BreakerState
  failureThreshold : Nat
  recoveryTimeout : Int
deriving DecidableEq, Repr

/-- A freshly constructed `CircuitBreaker` (defaults 5 / 60000). -/
def initBreaker : Breaker :=
  ⟨0, 0, .closed, 5, 60000⟩

/-- `onSuccess`: reset the failure count and close. -/
def Breaker.onSuccess (b : Breaker) : Breaker :=
  { b with failureCount := 0, state := .closed }

/-- `onFailure`: bump the count, refresh `lastFailureTime`, and open once
the threshold is reached. -/
def Breaker.onFailure (b : Breaker) (now : Int) : Breaker :=
  let b1 := { b with failureCount := b.failureCount + 1, lastFailureTime := now }
  if b1.failureCount ≥ b1.failureThreshold then { b1 with state := .opened }
  else b1

/-- The `try { await fn() } catch` part of `CircuitBreaker.call`, run once
the gate has let the call through.  `outcome` is the downstream settlement;
the `Bool` records that the downstream operation was invoked. -/
def Breaker.runDownstream (b : Breaker) (now : Int)
    (outcome : Except JsError α) : Breaker × Except JsError α × Bool :=
  match outcome with
  | .ok v => (b.onSuccess, .ok v, true)
  | .error e => (b.onFailure now, .error e, true)

/-- `CircuitBreaker.call`: in `OPEN`, either fail fast with the distinguished
breaker-open error (recovery window not yet elapsed) or move to `HALF_OPEN`
and attempt the downstream operation; otherwise attempt it directly. -/
def Breaker.call (b : Breaker) (now : Int) (outcome : Except JsError α) :
    Breaker × Except JsError α × Bool :=
  if b.state = .opened then
    if now - b.lastFailureTime > b.recoveryTimeout then
      Breaker.runDownstream { b with state := .halfOpen } now outcome
    else
      (b, .error .breakerOpen, false)
  else
    Breaker.runDownstream b now outcome

/-! ## Retry with backoff (`retryWithBackoff` in `weatherApi.ts`)

The backoff delay `baseDelay * 2^attempt + jitter` only schedules the next
attempt; it does not influence which result is returned or how many
invocations happen, so the embedding records outcomes and invocation counts.
`rem` is `maxRetries - attempt`, so `rem = 0` is the `attempt === maxRetries`
case in which the last error is re-thrown verbatim.  (The trailing
`throw new Error("Max retries exceeded")` after the loop is unreachable:
the final iteration always returns or throws.) -/

/-- The retry loop from `attempt`, with `rem` attempts still allowed after
the current one.  Returns the final outcome and the number of invocations
of the wrapped operation. -/
def retryGo (f : Nat → Except ε α) : Nat → Nat → Except ε α × Nat
  | attempt, 0 => (f attempt, attempt + 1)
  | attempt, rem + 1 =>
    match f attempt with
    | .ok v => (.ok v, attempt + 1)
    | .error _ => retryGo f (attempt + 1) rem

/-- `retryWithBackoff(fn, maxRetries, baseDelay)`: run the loop from
attempt `0`.  `f i` is the settlement of the `i`-th invocation of `fn`. -/
def retryWithBackoff (f : Nat → Except ε α) (maxRetries : Nat) :
    Except ε α × Nat :=
  retryGo f 0 maxRetries

/-! ## Timeout guard (`withTimeout` in `weatherApi.ts`) -/

/-- How one guarded operation resolves: either the timer fires first, or the
operation settles first with the given outcome. -/
inductive TimedOutcome (α : Type) where
  | timedOut
  | settled (r : Except JsError α)

/-- `withTimeout`: a fired timer becomes the distinguished
`NetworkError("Request timeout", ..., "TIMEOUT")`; otherwise the operation's
own settlement is passed through. -/
def withTimeout : TimedOutcome α → Except JsError α
  | .timedOut => .error .timeout
  | .settled r => r

/-! ## The service's composition (`WeatherApiService.fetchWeather`, line
`circuitBreaker.call(() => retryWithBackoff(() => withTimeout(fetchWeatherData(), REQUEST_TIMEOUT)))`)

`sched i` describes how the `i`-th timeout-guarded raw fetch resolves.  The
third component of the result counts raw-fetch invocations: when the breaker
gate refuses the call, the retry loop (and hence the raw fetch) never runs. -/

/-- The composition as written in the source: the circuit breaker wraps the
retry executor, which wraps the per-attempt timeout guard around the raw
fetch. -/
def codeFetchCompose (b : Breaker) (now : Int) (sched : Nat → TimedOutcome α)
    (maxRetries : Nat) : Breaker × Except JsError α × Nat :=
  let r := retryWithBackoff (fun i => withTimeout (sched i)) maxRetries
  let c := b.call now r.1
  (c.1, c.2.1, if c.2.2 then r.2 else 0)

/-- Modelled from the spec: the orchestration order the spec's §4.5 step 5
prescribes, `Timeout-Guard(Retry-Executor(Breaker.call(rawFetch)))` — the
breaker directly wraps each raw fetch, the retry executor re-enters the
breaker on every attempt, and a single outer timeout guard wraps the whole
retry loop.  This is the comparison point for the composition-order claim;
it is not found in the source.  The inner loop threads the breaker state
through the attempts. -/
def specRetryBreaker (now : Int) (raw : Nat → Except JsError α) :
    Breaker → Nat → Nat → Breaker × Except JsError α × Nat
  | b, attempt, 0 =>
    let c := b.call now (raw attempt)
    (c.1, c.2.1, attempt + 1)
  | b, attempt, rem + 1 =>
    let c := b.call now (raw attempt)
    match c.2.1 with
    | .ok v => (c.1, .ok v, attempt + 1)
    | .error _ => specRetryBreaker now raw c.1 (attempt + 1) rem

/-- Modelled from the spec: the full spec-side composition; `outerTimedOut`
says whether the single outermost timeout fires. -/
def specFetchCompose (b : Breaker) (now : Int) (raw : Nat → Except JsError α)
    (maxRetries : Nat) (outerTimedOut : Bool) :
    Breaker × Except JsError α × Nat :=
  let r := specRetryBreaker now raw b 0 maxRetries
  (r.1, if outerTimedOut then .error .timeout else r.2.1, r.2.2)

/-! ## City-name validation (`WeatherApiService.validateCityName`) -/

/-- ASCII letter, as matched by `[a-zA-Z]`. -/
def isAsciiLetter (c : Char) : Bool :=
  ('a' ≤ c && c ≤ 'z') || ('A' ≤ c && c ≤ 'Z')

/-- A character matched by the JavaScript regex class `\s`: space, tab,
line feed, vertical tab, form feed, carriage return, and the Unicode
whitespace code points. -/
def isRegexSpace (c : Char) : Bool :=
  c = ' ' || c = '\t' || c = '\n' || c = '\x0b' || c = '\x0c' || c = '\r' ||
  c = '\u00A0' || c = '\u1680' || ('\u2000' ≤ c && c ≤ '\u200A') ||
  c = '\u2028' || c = '\u2029' || c = '\u202F' || c = '\u205F' ||
  c = '\u3000' || c = '\uFEFF'

/-- A character matched by the validation regex class `[a-zA-Z\s\-',.]`. -/
def allowedCityChar (c : Char) : Bool :=
  isAsciiLetter c || isRegexSpace c || c = '-' || c = '\'' || c = ',' || c = '.'

/-- `validateCityName`: empty (falsy) input, over-long input, and input with
a character outside the regex class each raise a `ValidationError` with the
corresponding message. -/
def validateCityName (city : String) : Option String :=
  if city = "" then some "City name is required"
  else if city.length > 100 then some "City name is too long"
  else if !(city.toList.all allowedCityChar) then some "Invalid city name format"
  else none

/-- `WeatherApiService.fetchWeather` up to its resilience pipeline:
validation runs first and returns before any breaker interaction or raw
fetch; otherwise the composed pipeline runs (with the service's default
`maxRetries = 3`). -/
def serviceFetchWeather (b : Breaker) (now : Int) (city : String)
    (sched : Nat → TimedOutcome α) : Breaker × Except JsError α × Nat :=
  match validateCityName city with
  | some _ => (b, .error .validation, 0)
  | none => codeFetchCompose b now sched 3

/-! ## Supersession (`useWeatherData.fetchWeather` and
`WeatherApiService.cancelRequests`)

The event-loop world visible to overlapping `fetchWeather` calls:
the service's single `abortController` (identified by a fresh `Nat`),
the set of controllers whose `abort()` was called, and the hook's
`state.data` field, which is what the UI observes.  All steps below are
atomic event-loop turns of the single-threaded runtime. -/

structure SvcWorld where
  nextCtrl : Nat
  currentCtrl : Option Nat
  aborted : List Nat
  stateData : Option String
deriving DecidableEq, Repr

/-- The world before any request. -/
def initWorld : SvcWorld :=
  ⟨0, none, [], none⟩

/-- `WeatherApiService.cancelRequests()`: abort the current controller, if
any, and null the field. -/
def cancelRequests (w : SvcWorld) : SvcWorld :=
  match w.currentCtrl with
  | some c => { w with aborted := c :: w.aborted, currentCtrl := none }
  | none => w

/-- `this.abortController = new AbortController()`: install a fresh
controller and return its identity. -/
def newController (w : SvcWorld) : SvcWorld × Nat :=
  ({ w with currentCtrl := some w.nextCtrl, nextCtrl := w.nextCtrl + 1 },
   w.nextCtrl)

/-- The synchronous prologue of `WeatherApiService.fetchWeather`: cancel the
previous request, then install a fresh controller. -/
def svcPrologue (w : SvcWorld) : SvcWorld × Nat :=
  newController (cancelRequests w)

/-- A raw `fetch(url, { signal })` settling in world `w`: if the signal's
controller has been aborted by then, the promise rejects with `AbortError`;
otherwise the request for `city` succeeds with its payload (identified with
the city name). -/
def fetchSettle (w : SvcWorld) (ctrl : Nat) (city : String) :
    Except JsError String :=
  if ctrl ∈ w.aborted then .error .abortError else .ok city

/-- The hook's continuation after the service promise settles
(`useWeatherData.fetchWeather` success path and `catch` block): a success
stores the payload into `state.data`; an `AbortError` returns silently;
any other error sets `state.error`, leaving `state.data` unchanged. -/
def hookContinue (w : SvcWorld) (outcome : Except JsError String) : SvcWorld :=
  match outcome with
  | .ok d => { w with stateData := some d }
  | .error .abortError => w
  | .error _ => w

/-- The decisive interleaving for the supersession claim, with every step an
event-loop turn of the source:
1. `resolve("paris")` runs the service prologue (`weatherApi.ts` lines
   172-173) installing controller `c1`; its retry attempt 0 starts a fetch
   carrying signal `c1` and suspends.
2. `resolve("lyon")` runs before the first settles: `cancelRequests` aborts
   `c1` and installs `c2`; its fetch (signal `c2`) starts.
3. Lyon's fetch settles first and its hook continuation stores lyon's data.
4. Paris's attempt-0 fetch rejects with `AbortError` (`c1` is aborted).
   `retryWithBackoff` catches it — there is no abort check in the retry
   loop — waits out the backoff delay, and invokes `fetchWeatherData()`
   again; that invocation reads `this.abortController?.signal`, which is
   now lyon's controller `c2`, so the retried paris request is live again.
5. The retried paris fetch succeeds after lyon's continuation already ran;
   paris's hook continuation is not an `AbortError`, so it stores paris's
   data over lyon's.
The value surfaced to the UI at the end of the schedule: -/
def c4FinalData : Option String :=
  let p1 := svcPrologue initWorld
  let w1 := p1.1
  let c1 := p1.2
  let p2 := svcPrologue w1
  let w2 := p2.1
  let c2 := p2.2
  let lyonRes := fetchSettle w2 c2 "lyon"
  let w3 := hookContinue w2 lyonRes
  let parisAttempt : Nat → Except JsError String := fun i =>
    if i = 0 then fetchSettle w3 c1 "paris"
    else fetchSettle w3 (w3.currentCtrl.getD c2) "paris"
  let parisRes := retryWithBackoff parisAttempt 3
  let w4 := hookContinue w3 parisRes.1
  w4.stateData

/-! ## Concrete scenario states used by witnesses -/

/-- A breaker currently `OPEN` after five failures at time `0`, with the
default threshold and recovery timeout. -/
def bOpenW : Breaker :=
  ⟨5, 0, .opened, 5, 60000⟩

/-- A `CacheManager` that has just served exactly 3 hits and 1 miss: one
entry is stored, then looked up three times, then a missing key is looked
up once, all well before expiry. -/
def threeHitsOneMiss : MgrState Nat :=
  mgrRunGets ((initMgr Nat 50 300000).set 0 "a" 42 none) 0 ["a", "a", "a", "b"]

/-! ## Lemmas about the `Map` model -/

theorem mapKeys_nil : mapKeys ([] : List (String × α)) = [] := rfl

theorem mapKeys_cons (k : String) (v : α) (l : List (String × α)) :
    mapKeys ((k, v) :: l) = k :: mapKeys l := rfl

theorem mapDelete_nil (k : String) : mapDelete k ([] : List (String × α)) = [] := rfl

theorem mapDelete_cons_self (k : String) (v' : α) (rest : List (String × α)) :
    mapDelete k ((k, v') :: rest) = mapDelete k rest := by
  simp [mapDelete, List.filter_cons]

theorem mapDelete_cons_ne {k k' : String} (v' : α) (rest : List (String × α))
    (h : ¬ k' = k) :
    mapDelete k ((k', v') :: rest) = (k', v') :: mapDelete k rest := by
  simp [mapDelete, List.filter_cons, h]

theorem mapSet_cons_self (k : String) (v v' : α) (rest : List (String × α)) :
    mapSet k v ((k, v') :: rest) = (k, v) :: rest := by
  simp [mapSet]

theorem mapSet_cons_ne {k k' : String} (v v' : α) (rest : List (String × α))
    (h : ¬ k' = k) :
    mapSet k v ((k', v') :: rest) = (k', v') :: mapSet k v rest := by
  simp [mapSet, h]

theorem mapFind_isSome_iff (k : String) (l : List (String × α)) :
    (mapFind k l).isSome ↔ k ∈ mapKeys l := by
  induction l with
  | nil => simp [mapFind, mapKeys_nil]
  | cons p rest ih =>
    obtain ⟨k', v⟩ := p
    rw [mapKeys_cons]
    by_cases h : k' = k
    · subst h
      simp [mapFind]
    · have h' : ¬ k = k' := fun hc => h hc.symm
      simp [mapFind, h, h', ih]

theorem mem_mapKeys_tail {k k' : String} {v' : α} {rest : List (String × α)}
    (h : k ∈ mapKeys ((k', v') :: rest)) (hk : ¬ k' = k) : k ∈ mapKeys rest := by
  rw [mapKeys_cons] at h
  rcases List.mem_cons.mp h with h1 | h1
  · exact absurd h1.symm hk
  · exact h1

theorem mapKeys_mapSet_mem (k : String) (v : α) (l : List (String × α))
    (h : k ∈ mapKeys l) : mapKeys (mapSet k v l) = mapKeys l := by
  induction l with
  | nil => simp [mapKeys_nil] at h
  | cons p rest ih =>
    obtain ⟨k', v'⟩ := p
    by_cases hk : k' = k
    · subst hk
      rw [mapSet_cons_self, mapKeys_cons, mapKeys_cons]
    · rw [mapSet_cons_ne v v' rest hk, mapKeys_cons, mapKeys_cons,
        ih (mem_mapKeys_tail h hk)]

theorem mapKeys_mapSet_notMem (k : String) (v : α) (l : List (String × α))
    (h : k ∉ mapKeys l) : mapKeys (mapSet k v l) = mapKeys l ++ [k] := by
  induction l with
  | nil => simp [mapSet, mapKeys_nil, mapKeys_cons]
  | cons p rest ih =>
    obtain ⟨k', v'⟩ := p
    have hk : ¬ k' = k := by
      intro hc
      exact h (by rw [mapKeys_cons, hc]; exact List.mem_cons_self _ _)
    have h' : k ∉ mapKeys rest := fun hc =>
      h (by rw [mapKeys_cons]; exact List.mem_cons_of_mem _ hc)
    rw [mapSet_cons_ne v v' rest hk, mapKeys_cons, mapKeys_cons, ih h',
      List.cons_append]

theorem mem_mapKeys_mapDelete {x k : String} {l : List (String × α)} :
    x ∈ mapKeys (mapDelete k l) ↔ x ∈ mapKeys l ∧ x ≠ k := by
  induction l with
  | nil => simp [mapDelete_nil, mapKeys_nil]
  | cons p rest ih =>
    obtain ⟨k', v'⟩ := p
    by_cases hk : k' = k
    · subst hk
      rw [mapDelete_cons_self, mapKeys_cons, ih]
      constructor
      · rintro ⟨h1, h2⟩
        exact ⟨List.mem_cons_of_mem _ h1, h2⟩
      · rintro ⟨h1, h2⟩
        rcases List.mem_cons.mp h1 with h3 | h3
        · exact absurd h3 h2
        · exact ⟨h3, h2⟩
    · rw [mapDelete_cons_ne v' rest hk, mapKeys_cons, mapKeys_cons]
      simp only [List.mem_cons, ih]
      constructor
      · rintro (rfl | ⟨h1, h2⟩)
        · exact ⟨Or.inl rfl, fun hc => hk hc⟩
        · exact ⟨Or.inr h1, h2⟩
      · rintro ⟨h1 | h1, h2⟩
        · exact Or.inl h1
        · exact Or.inr ⟨h1, h2⟩

theorem nodup_mapKeys_mapDelete {k : String} {l : List (String × α)}
    (h : (mapKeys l).Nodup) : (mapKeys (mapDelete k l)).Nodup := by
  induction l with
  | nil => simp [mapDelete_nil, mapKeys_nil]
  | cons p rest ih =>
    obtain ⟨k', v'⟩ := p
    rw [mapKeys_cons, List.nodup_cons] at h
    by_cases hk : k' = k
    · subst hk
      rw [mapDelete_cons_self]
      exact ih h.2
    · rw [mapDelete_cons_ne v' rest hk, mapKeys_cons, List.nodup_cons]
      refine ⟨fun hc => h.1 (mem_mapKeys_mapDelete.mp hc).1, ih h.2⟩

theorem mapDelete_of_notMem {k : String} {l : List (String × α)}
    (h : k ∉ mapKeys l) : mapDelete k l = l := by
  induction l with
  | nil => rfl
  | cons p rest ih =>
    obtain ⟨k', v'⟩ := p
    have hk : ¬ k' = k := by
      intro hc
      exact h (by rw [mapKeys_cons, hc]; exact List.mem_cons_self _ _)
    have h' : k ∉ mapKeys rest := fun hc =>
      h (by rw [mapKeys_cons]; exact List.mem_cons_of_mem _ hc)
    rw [mapDelete_cons_ne v' rest hk, ih h']

theorem length_mapDelete_mem {k : String} {l : List (String × α)}
    (hnd : (mapKeys l).Nodup) (h : k ∈ mapKeys l) :
    (mapDelete k l).length + 1 = l.length := by
  induction l with
  | nil => simp [mapKeys_nil] at h
  | cons p rest ih =>
    obtain ⟨k', v'⟩ := p
    rw [mapKeys_cons, List.nodup_cons] at hnd
    by_cases hk : k' = k
    · subst hk
      rw [mapDelete_cons_self, mapDelete_of_notMem hnd.1]
      simp
    · rw [mapDelete_cons_ne v' rest hk]
      have := ih hnd.2 (mem_mapKeys_tail h hk)
      simp only [List.length_cons]
      omega

theorem length_mapDelete_le (k : String) (l : List (String × α)) :
    (mapDelete k l).length ≤ l.length :=
  List.length_filter_le _ l

theorem length_mapKeys (l : List (String × α)) :
    (mapKeys l).length = l.length :=
  List.length_map l Prod.fst

theorem length_mapSet_mem {k : String} {v : α} {l : List (String × α)}
    (h : k ∈ mapKeys l) : (mapSet k v l).length = l.length := by
  have := congrArg List.length (mapKeys_mapSet_mem k v l h)
  rwa [length_mapKeys, length_mapKeys] at this

theorem length_mapSet_notMem {k : String} {v : α} {l : List (String × α)}
    (h : k ∉ mapKeys l) : (mapSet k v l).length = l.length + 1 := by
  have := congrArg List.length (mapKeys_mapSet_notMem k v l h)
  rw [length_mapKeys, List.length_append, length_mapKeys] at this
  simpa using this

theorem nodup_mapKeys_mapSet {k : String} (v : α) {l : List (String × α)}
    (h : (mapKeys l).Nodup) : (mapKeys (mapSet k v l)).Nodup := by
  by_cases hm : k ∈ mapKeys l
  · rw [mapKeys_mapSet_mem k v l hm]
    exact h
  · rw [mapKeys_mapSet_notMem k v l hm]
    simp [List.nodup_append, h, hm]

theorem mem_mapKeys_mapSet {x k : String} (v : α) {l : List (String × α)} :
    x ∈ mapKeys (mapSet k v l) ↔ x ∈ mapKeys l ∨ x = k := by
  by_cases hm : k ∈ mapKeys l
  · rw [mapKeys_mapSet_mem k v l hm]
    constructor
    · exact Or.inl
    · rintro (h | rfl)
      · exact h
      · exact hm
  · rw [mapKeys_mapSet_notMem k v l hm]
    simp

/-! ## The store invariant -/

/-- The structural invariant of a reachable `LRUCache`: the key columns of
`cache` and `accessOrder` are duplicate-free, both maps carry exactly the
same keys, and the size respects the capacity. -/
def Inv (s : LRUState V) : Prop :=
  (mapKeys s.cache).Nodup ∧ (mapKeys s.accessOrder).Nodup ∧
  (∀ x, x ∈ mapKeys s.cache ↔ x ∈ mapKeys s.accessOrder) ∧
  s.cache.length ≤ s.maxSize

theorem findLRUAux_mem (b : String × Nat) (l : List (String × Nat)) :
    findLRUAux b l ∈ b :: l := by
  induction l generalizing b with
  | nil => simp [findLRUAux]
  | cons p rest ih =>
    obtain ⟨k, t⟩ := p
    rw [findLRUAux]
    have h := ih (if t < b.2 then (k, t) else b)
    rcases List.mem_cons.mp h with h1 | h1
    · rw [h1]
      by_cases ht : t < b.2
      · rw [if_pos ht]
        exact List.mem_cons.mpr (Or.inr (List.mem_cons_self _ _))
      · rw [if_neg ht]
        exact List.mem_cons_self _ _
    · exact List.mem_cons.mpr (Or.inr (List.mem_cons_of_mem _ h1))

theorem findLRUAux_min (b : String × Nat) (l : List (String × Nat)) :
    (findLRUAux b l).2 ≤ b.2 ∧ ∀ q ∈ l, (findLRUAux b l).2 ≤ q.2 := by
  induction l generalizing b with
  | nil => simp [findLRUAux]
  | cons p rest ih =>
    obtain ⟨k, t⟩ := p
    have h := ih (if t < b.2 then (k, t) else b)
    have hseed : (if t < b.2 then (k, t) else b).2 ≤ b.2 := by
      by_cases ht : t < b.2
      · rw [if_pos ht]
        exact Nat.le_of_lt ht
      · rw [if_neg ht]
    have htt : (if t < b.2 then (k, t) else b).2 ≤ t := by
      by_cases ht : t < b.2
      · rw [if_pos ht]
      · rw [if_neg ht]
        exact Nat.le_of_not_lt ht
    constructor
    · rw [findLRUAux]
      exact le_trans h.1 hseed
    · intro q hq
      rcases List.mem_cons.mp hq with rfl | hq'
      · rw [findLRUAux]
        exact le_trans h.1 htt
      · rw [findLRUAux]
        exact h.2 q hq'

theorem inv_del {s : LRUState V} (hs : Inv s) (k : String) : Inv (s.del k) := by
  obtain ⟨h1, h2, h3, h4⟩ := hs
  refine ⟨nodup_mapKeys_mapDelete h1, nodup_mapKeys_mapDelete h2, ?_, ?_⟩
  · intro x
    constructor
    · intro hx
      have := mem_mapKeys_mapDelete.mp hx
      exact mem_mapKeys_mapDelete.mpr ⟨(h3 x).mp this.1, this.2⟩
    · intro hx
      have := mem_mapKeys_mapDelete.mp hx
      exact mem_mapKeys_mapDelete.mpr ⟨(h3 x).mpr this.1, this.2⟩
  · exact le_trans (length_mapDelete_le k s.cache) h4

theorem del_maxSize (s : LRUState V) (k : String) :
    (s.del k).maxSize = s.maxSize := rfl

theorem evictLRU_maxSize (s : LRUState V) :
    s.evictLRU.maxSize = s.maxSize := by
  rw [LRUState.evictLRU]
  cases evictTarget s <;> rfl

/-- When the store invariant holds and the cache is non-empty, `evictLRU`
really removes one key, and that key is present in the cache. -/
theorem evict_removes_one {s : LRUState V} (hs : Inv s)
    (hne : s.cache.length ≠ 0) :
    ∃ p : String × Nat, evictTarget s = some p ∧ s.evictLRU = s.del p.1 ∧
      p.1 ∈ mapKeys s.cache ∧ s.evictLRU.cache.length + 1 = s.cache.length := by
  obtain ⟨h1, h2, h3, h4⟩ := hs
  have hao : s.accessOrder ≠ [] := by
    intro hc
    match hcache : s.cache with
    | [] => exact hne (by rw [hcache]; rfl)
    | q :: rest =>
      have : q.1 ∈ mapKeys s.cache := by
        rw [hcache, mapKeys]
        exact List.mem_map_of_mem Prod.fst (List.mem_cons_self _ _)
      have := (h3 q.1).mp this
      rw [hc] at this
      simp [mapKeys_nil] at this
  match hord : s.accessOrder with
  | [] => exact absurd hord hao
  | p0 :: rest =>
    have htarget : evictTarget s = some (findLRUAux p0 rest) := by
      rw [evictTarget, if_neg hne, hord]
    have hmem : (findLRUAux p0 rest).1 ∈ mapKeys s.accessOrder := by
      rw [hord, mapKeys]
      exact List.mem_map_of_mem Prod.fst (findLRUAux_mem p0 rest)
    have hmemc : (findLRUAux p0 rest).1 ∈ mapKeys s.cache := (h3 _).mpr hmem
    refine ⟨findLRUAux p0 rest, htarget, ?_, hmemc, ?_⟩
    · rw [LRUState.evictLRU, htarget]
    · rw [LRUState.evictLRU, htarget]
      exact length_mapDelete_mem h1 hmemc

theorem writeEntry_maxSize (s : LRUState V) (e : CacheEntry V) (k : String) :
    (s.writeEntry e k).maxSize = s.maxSize := rfl

theorem inv_writeEntry {s : LRUState V} (hs : Inv s) (e : CacheEntry V)
    (k : String)
    (hlen : s.cache.length + (if k ∈ mapKeys s.cache then 0 else 1) ≤ s.maxSize) :
    Inv (s.writeEntry e k) := by
  obtain ⟨h1, h2, h3, h4⟩ := hs
  refine ⟨nodup_mapKeys_mapSet e h1, nodup_mapKeys_mapSet _ h2, ?_, ?_⟩
  · intro x
    rw [show (s.writeEntry e k).cache = mapSet k e s.cache from rfl,
      show (s.writeEntry e k).accessOrder
        = mapSet k (s.accessCounter + 1) s.accessOrder from rfl,
      mem_mapKeys_mapSet e, mem_mapKeys_mapSet (s.accessCounter + 1)]
    constructor
    · rintro (h | rfl)
      · exact Or.inl ((h3 x).mp h)
      · exact Or.inr rfl
    · rintro (h | rfl)
      · exact Or.inl ((h3 x).mpr h)
      · exact Or.inr rfl
  · rw [show (s.writeEntry e k).cache = mapSet k e s.cache from rfl,
      show (s.writeEntry e k).maxSize = s.maxSize from rfl]
    by_cases hm : k ∈ mapKeys s.cache
    · rw [length_mapSet_mem hm]
      simpa [hm] using hlen
    · rw [length_mapSet_notMem hm]
      simpa [hm] using hlen

theorem inv_set {s : LRUState V} (hs : Inv s) (hmax : 1 ≤ s.maxSize)
    (now : Int) (k : String) (v : V) (ttl : Option Int) :
    Inv (s.set now k v ttl) ∧ (s.set now k v ttl).maxSize = s.maxSize := by
  rw [LRUState.set]
  by_cases hfind : (mapFind k s.cache).isSome
  · rw [if_pos hfind]
    have hkc : k ∈ mapKeys s.cache := (mapFind_isSome_iff k s.cache).mp hfind
    exact ⟨inv_writeEntry hs _ k (by simpa [hkc] using hs.2.2.2), rfl⟩
  · rw [if_neg hfind]
    have hkc : k ∉ mapKeys s.cache := fun hc =>
      hfind ((mapFind_isSome_iff k s.cache).mpr hc)
    by_cases hcap : s.cache.length ≥ s.maxSize
    · rw [if_pos hcap]
      have hne : s.cache.length ≠ 0 := by omega
      obtain ⟨p, _, hev, hpmem, hlen⟩ := evict_removes_one hs hne
      have hinv1 : Inv s.evictLRU := by
        rw [hev]
        exact inv_del hs p.1
      have hk1 : k ∉ mapKeys s.evictLRU.cache := by
        rw [hev]
        intro hc
        exact hkc (mem_mapKeys_mapDelete.mp hc).1
      have hms : s.evictLRU.maxSize = s.maxSize := evictLRU_maxSize s
      refine ⟨inv_writeEntry hinv1 _ k ?_, by rw [writeEntry_maxSize, hms]⟩
      rw [if_neg hk1, hms]
      have h4 := hs.2.2.2
      omega
    · rw [if_neg hcap]
      refine ⟨inv_writeEntry hs _ k ?_, rfl⟩
      rw [if_neg hkc]
      omega

theorem inv_get {s : LRUState V} (hs : Inv s) (now : Int) (k : String) :
    Inv (s.get now k).2 ∧ (s.get now k).2.maxSize = s.maxSize := by
  rw [LRUState.get]
  cases hfind : mapFind k s.cache with
  | none => exact ⟨hs, rfl⟩
  | some entry =>
    dsimp only
    by_cases hexp : now > entry.expiresAt
    · rw [if_pos hexp]
      exact ⟨inv_del hs k, rfl⟩
    · rw [if_neg hexp]
      obtain ⟨h1, h2, h3, h4⟩ := hs
      have hkc : k ∈ mapKeys s.cache :=
        (mapFind_isSome_iff k s.cache).mp (by rw [hfind]; rfl)
      have hka : k ∈ mapKeys s.accessOrder := (h3 k).mp hkc
      have hkeys := mapKeys_mapSet_mem k (s.accessCounter + 1) s.accessOrder hka
      refine ⟨⟨h1, ?_, ?_, h4⟩, rfl⟩
      · rw [show ({ s with
            accessOrder := mapSet k (s.accessCounter + 1) s.accessOrder,
            accessCounter := s.accessCounter + 1 } : LRUState V).accessOrder
          = mapSet k (s.accessCounter + 1) s.accessOrder from rfl, hkeys]
        exact h2
      · intro x
        rw [show ({ s with
            accessOrder := mapSet k (s.accessCounter + 1) s.accessOrder,
            accessCounter := s.accessCounter + 1 } : LRUState V).accessOrder
          = mapSet k (s.accessCounter + 1) s.accessOrder from rfl, hkeys]
        exact h3 x

theorem inv_has {s : LRUState V} (hs : Inv s) (now : Int) (k : String) :
    Inv (s.has now k).2 ∧ (s.has now k).2.maxSize = s.maxSize := by
  rw [LRUState.has]
  cases hfind : mapFind k s.cache with
  | none => exact ⟨hs, rfl⟩
  | some entry =>
    dsimp only
    by_cases hexp : now > entry.expiresAt
    · rw [if_pos hexp]
      exact ⟨inv_del hs k, rfl⟩
    · rw [if_neg hexp]
      exact ⟨hs, rfl⟩

theorem inv_foldl_del :
    ∀ (ks : List String) (s : LRUState V), Inv s →
      Inv (ks.foldl (fun acc k => acc.del k) s) ∧
      (ks.foldl (fun acc k => acc.del k) s).maxSize = s.maxSize
  | [], _, hs => ⟨hs, rfl⟩
  | k :: ks, s, hs => by
    have h := inv_foldl_del ks (s.del k) (inv_del hs k)
    exact ⟨h.1, h.2⟩

theorem inv_clearAll (s : LRUState V) :
    Inv s.clearAll ∧ s.clearAll.maxSize = s.maxSize :=
  ⟨⟨List.nodup_nil, List.nodup_nil, fun _ => Iff.rfl, Nat.zero_le _⟩, rfl⟩

theorem inv_applyCacheOp {s : LRUState V} (hs : Inv s) (hmax : 1 ≤ s.maxSize) :
    ∀ op : CacheOp V,
      Inv (applyCacheOp s op) ∧ (applyCacheOp s op).maxSize = s.maxSize
  | .get now k => inv_get hs now k
  | .set now k v ttl => inv_set hs hmax now k v ttl
  | .has now k => inv_has hs now k
  | .del k => ⟨inv_del hs k, rfl⟩
  | .clearAll => inv_clearAll s
  | .cleanup now => inv_foldl_del _ s hs

theorem inv_runCacheOps :
    ∀ (ops : List (CacheOp V)) (s : LRUState V), Inv s → 1 ≤ s.maxSize →
      Inv (runCacheOps s ops) ∧ (runCacheOps s ops).maxSize = s.maxSize
  | [], _, hs, _ => ⟨hs, rfl⟩
  | op :: ops, s, hs, hm => by
    have h1 := inv_applyCacheOp hs hm op
    have h2 := inv_runCacheOps ops (applyCacheOp s op) h1.1 (by rw [h1.2]; exact hm)
    refine ⟨h2.1, ?_⟩
    show (runCacheOps (applyCacheOp s op) ops).maxSize = s.maxSize
    rw [h2.2, h1.2]

/-! ## Claim C1 -/

/-- C1 counterexample: the size bound fails as stated.  With `maxSize = 0`,
a single `set` on the fresh store runs the eviction branch (a no-op on the
empty cache) and then inserts anyway, so the size after the mutating
operation is `1 > 0`. -/
theorem c1_maxsize_zero_counterexample :
    (runCacheOps (initLRU Nat 0 300000)
      [CacheOp.set 0 "a" 1 none]).cache.length = 1 := by
  decide

/-- C1 (amended): provided the store is constructed with `maxSize ≥ 1`, the
size never exceeds `maxSize` after any sequence of operations, and whenever
`evictLRU` selects a victim, that victim is an entry of the access-order map
with the lowest recency rank (so the evicted key is the least-recently
touched one). -/
theorem lru_size_bounded_and_evicts_least_recently_touched
    {V : Type} (maxSize : Nat) (dflt : Int) (ops : List (CacheOp V))
    (hmax : 1 ≤ maxSize) :
    (runCacheOps (initLRU V maxSize dflt) ops).cache.length ≤ maxSize ∧
    (∀ (s : LRUState V) (p : String × Nat), evictTarget s = some p →
      s.evictLRU = s.del p.1 ∧ p ∈ s.accessOrder ∧
        ∀ q ∈ s.accessOrder, p.2 ≤ q.2) := by
  constructor
  · have hinit : Inv (initLRU V maxSize dflt) :=
      ⟨List.nodup_nil, List.nodup_nil, fun _ => Iff.rfl, Nat.zero_le _⟩
    have h := inv_runCacheOps ops (initLRU V maxSize dflt) hinit hmax
    have hb := h.1.2.2.2
    rwa [h.2] at hb
  · intro s p htarget
    rw [evictTarget] at htarget
    by_cases hlen : s.cache.length = 0
    · rw [if_pos hlen] at htarget
      exact absurd htarget (by simp)
    · rw [if_neg hlen] at htarget
      cases hord : s.accessOrder with
      | nil =>
        rw [hord] at htarget
        exact absurd htarget (by simp)
      | cons p0 rest =>
        rw [hord] at htarget
        have hp : p = findLRUAux p0 rest := by
          injection htarget with h
          exact h.symm
        subst hp
        refine ⟨?_, ?_, ?_⟩
        · rw [LRUState.evictLRU, evictTarget, if_neg hlen, hord]
        · exact findLRUAux_mem p0 rest
        · intro q hq
          rcases List.mem_cons.mp hq with h | hq'
          · rw [h]
            exact (findLRUAux_min p0 rest).1
          · exact (findLRUAux_min p0 rest).2 q hq'

/-- Witness for C1: the amended theorem applied at `maxSize = 2` and the
spec's own scripted pattern (set a, b, c). -/
theorem lru_size_bounded_witness :
    1 ≤ 2 ∧
    ((runCacheOps (initLRU Nat 2 1000)
        [CacheOp.set 0 "a" 1 none, CacheOp.set 0 "b" 2 none,
         CacheOp.set 0 "c" 3 none]).cache.length ≤ 2 ∧
      (∀ (s : LRUState Nat) (p : String × Nat), evictTarget s = some p →
        s.evictLRU = s.del p.1 ∧ p ∈ s.accessOrder ∧
          ∀ q ∈ s.accessOrder, p.2 ≤ q.2)) :=
  ⟨by decide,
   lru_size_bounded_and_evicts_least_recently_touched 2 1000
     [CacheOp.set 0 "a" 1 none, CacheOp.set 0 "b" 2 none,
      CacheOp.set 0 "c" 3 none] (by decide)⟩

/-! ## Claim C6 -/

/-- C6 counterexample: `set` with `ttl = 0` does not create an
already-expired entry.  JavaScript's `ttl || defaultTTL` treats `0` as
absent, so the entry gets the default TTL and an immediate `get` returns
the value and `has` returns `true`. -/
theorem ttl_zero_not_expired_counterexample :
    (((initLRU Nat 50 300000).set 0 "k" 7 (some 0)).get 0 "k").1 = some 7 ∧
    (((initLRU Nat 50 300000).set 0 "k" 7 (some 0)).has 0 "k").1 = true := by
  decide

/-- C6 (amended): only a strictly negative `ttl` creates an entry that is
already expired on the next read: the subsequent `get` returns nothing and
removes the entry, and `has` returns `false`.  (`ttl = 0` instead falls
back to the default TTL, as the counterexample shows.) -/
theorem negative_ttl_expires_immediately {V : Type} (k : String) (v : V)
    (t now later : Int) (maxSize : Nat) (dflt : Int)
    (ht : t < 0) (hl : now ≤ later) :
    ((((initLRU V maxSize dflt).set now k v (some t)).get later k).1 = none ∧
      (((initLRU V maxSize dflt).set now k v (some t)).get later k).2.cache = []) ∧
    (((initLRU V maxSize dflt).set now k v (some t)).has later k).1 = false := by
  have hset : (initLRU V maxSize dflt).set now k v (some t)
      = ⟨[(k, ⟨v, now, now + t⟩)], [(k, 1)], 1, maxSize, dflt⟩ := by
    rw [LRUState.set]
    have hbase : (if (initLRU V maxSize dflt).cache.length ≥
          (initLRU V maxSize dflt).maxSize
        then (initLRU V maxSize dflt).evictLRU
        else initLRU V maxSize dflt) = initLRU V maxSize dflt := by
      split <;> rfl
    rw [if_neg (by simp [initLRU, mapFind]), hbase]
    rw [show ttlOrDefault (some t) (initLRU V maxSize dflt).defaultTTL = t from by
      rw [ttlOrDefault, if_neg (by omega)]]
    rfl
  have hexp : later > now + t := by omega
  rw [hset]
  have hfind : mapFind k [(k, (⟨v, now, now + t⟩ : CacheEntry V))]
      = some ⟨v, now, now + t⟩ := by
    rw [mapFind, if_pos rfl]
  refine ⟨⟨?_, ?_⟩, ?_⟩
  · rw [LRUState.get, hfind]
    dsimp only
    rw [if_pos hexp]
  · rw [LRUState.get, hfind]
    dsimp only
    rw [if_pos hexp]
    show mapDelete k ((k, (⟨v, now, now + t⟩ : CacheEntry V)) :: []) = []
    rw [mapDelete_cons_self, mapDelete_nil]
  · rw [LRUState.has, hfind]
    dsimp only
    rw [if_pos hexp]

/-- Witness for C6: the amended theorem at `ttl = -1`, read at the very
same instant it was written. -/
theorem negative_ttl_expires_witness :
    ((-1 : Int) < 0 ∧ (5 : Int) ≤ 5) ∧
    (((((initLRU Nat 50 300000).set 5 "k" 7 (some (-1))).get 5 "k").1 = none ∧
      ((((initLRU Nat 50 300000).set 5 "k" 7 (some (-1))).get 5 "k").2.cache = [])) ∧
      (((initLRU Nat 50 300000).set 5 "k" 7 (some (-1))).has 5 "k").1 = false) :=
  ⟨⟨by decide, by decide⟩,
   negative_ttl_expires_immediately "k" 7 (-1) 5 5 50 300000
     (by decide) (by decide)⟩

/-! ## Claim C7 -/

/-- C7 counterexample: with `maxSize = 0`, `set` is not a no-op.  The
eviction attempt on the empty store does nothing, the entry is inserted,
the size becomes `1`, and an immediate `get` returns the stored value. -/
theorem maxsize_zero_set_not_noop_counterexample :
    ((initLRU Nat 0 300000).set 5 "x" 9 none).cache.length = 1 ∧
    (((initLRU Nat 0 300000).set 5 "x" 9 none).get 5 "x").1 = some 9 := by
  decide

/-- C7 (amended): with `maxSize = 0`, `set` on the empty store still
inserts: `evictLRU` returns without deleting anything because the cache is
empty, after which the new entry is written, so the size becomes `1` and a
`get` before expiry returns the value. -/
theorem maxsize_zero_set_inserts {V : Type} (k : String) (v : V)
    (now later dflt : Int) (h : later ≤ now + dflt) :
    ((initLRU V 0 dflt).set now k v none).cache.length = 1 ∧
    (((initLRU V 0 dflt).set now k v none).get later k).1 = some v := by
  have hset : (initLRU V 0 dflt).set now k v none
      = ⟨[(k, ⟨v, now, now + dflt⟩)], [(k, 1)], 1, 0, dflt⟩ := by
    rw [LRUState.set]
    rw [if_neg (by simp [initLRU, mapFind])]
    rw [if_pos (by simp [initLRU])]
    rw [show (initLRU V 0 dflt).evictLRU = initLRU V 0 dflt from rfl]
    rfl
  rw [hset]
  refine ⟨rfl, ?_⟩
  rw [LRUState.get]
  rw [show mapFind k [(k, (⟨v, now, now + dflt⟩ : CacheEntry V))]
      = some ⟨v, now, now + dflt⟩ from by rw [mapFind, if_pos rfl]]
  dsimp only
  rw [if_neg (show ¬ later > now + dflt by omega)]

/-- Witness for C7: the amended theorem at a concrete write and an
immediate read. -/
theorem maxsize_zero_set_inserts_witness :
    (0 : Int) ≤ 0 + 300000 ∧
    (((initLRU Nat 0 300000).set 0 "y" 3 none).cache.length = 1 ∧
      (((initLRU Nat 0 300000).set 0 "y" 3 none).get 0 "y").1 = some 3) :=
  ⟨by decide, maxsize_zero_set_inserts "y" 3 0 0 300000 (by decide)⟩

/-! ## Claim C2 -/

/-- C2: while the breaker is `OPEN` and `now - lastFailureTime` has not
exceeded `recoveryTimeout`, every call returns the distinguished
breaker-open error with the downstream operation not invoked and the
breaker state unchanged; once the window has elapsed, the next call behaves
exactly like a pass-through on the breaker moved to `HALF_OPEN`, and the
downstream operation is invoked. -/
theorem breaker_open_fails_fast_then_half_opens {α : Type} (b : Breaker)
    (now : Int) (outcome : Except JsError α) (hopen : b.state = .opened) :
    (now - b.lastFailureTime ≤ b.recoveryTimeout →
      b.call now outcome = (b, .error .breakerOpen, false)) ∧
    (now - b.lastFailureTime > b.recoveryTimeout →
      b.call now outcome
        = Breaker.runDownstream { b with state := .halfOpen } now outcome ∧
      (b.call now outcome).2.2 = true) := by
  constructor
  · intro h
    rw [Breaker.call, if_pos hopen, if_neg (not_lt.mpr h)]
  · intro h
    refine ⟨?_, ?_⟩
    · rw [Breaker.call, if_pos hopen, if_pos h]
    · rw [Breaker.call, if_pos hopen, if_pos h]
      cases outcome <;> rfl

/-- Witness for C2: a breaker opened at time `0` still fails fast at time
`1000` (window `60000` not elapsed). -/
theorem breaker_open_fails_fast_witness :
    bOpenW.call 1000 (Except.ok (7 : Nat))
      = (bOpenW, .error .breakerOpen, false) :=
  (breaker_open_fails_fast_then_half_opens bOpenW 1000 (Except.ok 7) rfl).1
    (by decide)

/-! ## Retry loop lemmas -/

theorem retryGo_count_le (f : Nat → Except ε α) (rem : Nat) :
    ∀ a, (retryGo f a rem).2 ≤ a + rem + 1 := by
  induction rem with
  | zero =>
    intro a
    rw [retryGo]
  | succ rem ih =>
    intro a
    rw [retryGo]
    cases hfa : f a with
    | ok v => simp
    | error e =>
      have := ih (a + 1)
      dsimp only
      omega

theorem retryGo_success (f : Nat → Except ε α) :
    ∀ (d rem a : Nat) (v : α), d ≤ rem →
      (∀ j, j < d → ∃ e, f (a + j) = .error e) → f (a + d) = .ok v →
      retryGo f a rem = (.ok v, a + d + 1)
  | 0, rem, a, v, _, _, hok => by
    rw [Nat.add_zero] at hok
    cases rem with
    | zero => rw [retryGo, hok]
    | succ rem => rw [retryGo, hok]
  | d + 1, rem, a, v, hd, herr, hok => by
    obtain ⟨e0, he0⟩ := herr 0 (Nat.succ_pos d)
    rw [Nat.add_zero] at he0
    cases rem with
    | zero => omega
    | succ rem =>
      rw [retryGo, he0]
      have ih := retryGo_success f d rem (a + 1) v (by omega)
        (fun j hj => by
          have := herr (j + 1) (by omega)
          rwa [show a + (j + 1) = a + 1 + j from by omega] at this)
        (by rwa [show a + 1 + d = a + (d + 1) from by omega])
      rw [ih, show a + 1 + d + 1 = a + (d + 1) + 1 from by omega]

theorem retryGo_all_fail (f : Nat → Except ε α) :
    ∀ (rem a : Nat), (∀ j, j ≤ rem → ∃ e, f (a + j) = .error e) →
      ∃ e, f (a + rem) = .error e ∧
        retryGo f a rem = (.error e, a + rem + 1)
  | 0, a, h => by
    obtain ⟨e, he⟩ := h 0 (Nat.le_refl 0)
    rw [Nat.add_zero] at he
    exact ⟨e, by rw [Nat.add_zero]; exact he, by rw [retryGo, he]⟩
  | rem + 1, a, h => by
    obtain ⟨e0, he0⟩ := h 0 (Nat.zero_le _)
    rw [Nat.add_zero] at he0
    obtain ⟨e, he, hr⟩ := retryGo_all_fail f rem (a + 1)
      (fun j hj => by
        have := h (j + 1) (by omega)
        rwa [show a + (j + 1) = a + 1 + j from by omega] at this)
    refine ⟨e, ?_, ?_⟩
    · rwa [show a + (rem + 1) = a + 1 + rem from by omega]
    · rw [retryGo, he0, hr, show a + 1 + rem + 1 = a + (rem + 1) + 1 from by omega]

/-! ## Claim C3 -/

/-- C3: the retry executor invokes the operation at most `maxRetries + 1`
times; if the first success is at (0-based) attempt `k` the success is
returned after exactly `k + 1` invocations; and if every attempt fails,
exactly `maxRetries + 1` invocations occur and the very error of the last
attempt is re-raised (not a generic wrapper). -/
theorem retry_bounds_and_last_error_verbatim {ε α : Type}
    (f : Nat → Except ε α) (maxRetries : Nat) :
    (retryWithBackoff f maxRetries).2 ≤ maxRetries + 1 ∧
    (∀ (k : Nat) (v : α), k ≤ maxRetries →
      (∀ j, j < k → ∃ e, f j = .error e) → f k = .ok v →
      retryWithBackoff f maxRetries = (.ok v, k + 1)) ∧
    ((∀ j, j ≤ maxRetries → ∃ e, f j = .error e) →
      ∃ e, f maxRetries = .error e ∧
        retryWithBackoff f maxRetries = (.error e, maxRetries + 1)) := by
  refine ⟨?_, ?_, ?_⟩
  · have h := retryGo_count_le f maxRetries 0
    simpa [retryWithBackoff] using h
  · intro k v hk herr hok
    have h := retryGo_success f k maxRetries 0 v hk
      (by simpa using herr) (by simpa using hok)
    simpa [retryWithBackoff] using h
  · intro hall
    have h := retryGo_all_fail f maxRetries 0 (by simpa using hall)
    simpa [retryWithBackoff] using h

/-- Witness for C3: an operation failing on attempts 0 and 1 and succeeding
on attempt 2 returns the success after exactly 3 invocations. -/
theorem retry_bounds_witness :
    retryWithBackoff
      (fun i => if i < 2 then Except.error i else Except.ok 42) 3
      = (Except.ok (42 : Nat), 3) :=
  (retry_bounds_and_last_error_verbatim
      (fun i => if i < 2 then Except.error i else Except.ok 42) 3).2.1 2 42
    (by decide)
    (fun j hj => ⟨j, by
      have : j < 2 := hj
      simp [this]⟩)
    rfl

/-! ## Claim C8 -/

/-- C8 counterexample: an `ApiError` with status 404 ("city not found") is
retried like any other error — the always-404 operation is invoked all
`maxRetries + 1 = 4` times, not raised after the first attempt. -/
theorem api_404_retried_counterexample :
    retryWithBackoff
      (fun _ => (Except.error (JsError.api 404) : Except JsError Nat)) 3
      = (.error (.api 404), 4) ∧ (4 : Nat) ≠ 1 := by
  exact ⟨rfl, by decide⟩

/-- C8 (amended): `retryWithBackoff` has no error-classification: every
failing operation is retried regardless of the error's class, so a constant
failure — whether 404, 401, 429 or 5xx — always consumes all
`maxRetries + 1` invocations and re-raises that same error. -/
theorem retry_ignores_error_class {ε α : Type} (e : ε) (maxRetries : Nat) :
    retryWithBackoff (fun _ => (Except.error e : Except ε α)) maxRetries
      = (.error e, maxRetries + 1) := by
  obtain ⟨e', he', hr⟩ :=
    retryGo_all_fail (fun _ => (Except.error e : Except ε α)) maxRetries 0
      (fun _ _ => ⟨e, rfl⟩)
  have he'' : e = e' := by
    injection he'
  subst he''
  simpa [retryWithBackoff] using hr

/-! ## Claim C5 -/

theorem onFailure_failureCount (b : Breaker) (now : Int) :
    (b.onFailure now).failureCount = b.failureCount + 1 := by
  rw [Breaker.onFailure]
  split <;> rfl

/-- C5 counterexample: the claimed nesting
`Timeout(Retry(Breaker(rawFetch)))` is observably different from the
source's composition.  With a fresh breaker and a downstream failing every
attempt with a 500, the source's `Breaker(Retry(Timeout(raw)))` records a
single breaker failure for the whole call, whereas the claimed nesting
would drive the breaker through one failure per attempt, i.e. four. -/
theorem compose_order_counterexample :
    (codeFetchCompose initBreaker 0
      (fun _ => TimedOutcome.settled
        (Except.error (JsError.api 500) : Except JsError Nat)) 3).1.failureCount
      = 1 ∧
    (specFetchCompose initBreaker 0
      (fun _ => (Except.error (JsError.api 500) : Except JsError Nat)) 3
      false).1.failureCount = 4 ∧
    (1 : Nat) ≠ 4 := by
  exact ⟨rfl, rfl, by decide⟩

/-- C5 (amended): in the source the circuit breaker is the outermost
wrapper, the retry executor sits inside it, and the timeout guard wraps
each raw fetch attempt innermost.  Consequently: (1) while the breaker
refuses the call, the retry loop and the raw fetch never run at all;
(2) with the breaker closed, one whole call moves the failure count by at
most one — to `failureCount + 1` when the retry pipeline ultimately fails,
and to `0` when it ultimately succeeds — regardless of how many attempts
failed inside; (3) a timed-out first attempt is converted to the timeout
error inside the retry loop and is retried. -/
theorem breaker_outermost_timeout_innermost {α : Type} (b : Breaker)
    (now : Int) (sched : Nat → TimedOutcome α) (maxRetries : Nat) :
    (b.state = .opened → now - b.lastFailureTime ≤ b.recoveryTimeout →
      codeFetchCompose b now sched maxRetries = (b, .error .breakerOpen, 0)) ∧
    (b.state = .closed →
      (∀ e, (retryWithBackoff (fun i => withTimeout (sched i)) maxRetries).1
          = .error e →
        (codeFetchCompose b now sched maxRetries).1.failureCount
          = b.failureCount + 1) ∧
      (∀ v, (retryWithBackoff (fun i => withTimeout (sched i)) maxRetries).1
          = .ok v →
        (codeFetchCompose b now sched maxRetries).1.failureCount = 0)) ∧
    (b.state = .closed → 1 ≤ maxRetries → ∀ v : α,
      sched 0 = .timedOut → sched 1 = .settled (.ok v) →
      codeFetchCompose b now sched maxRetries = (b.onSuccess, .ok v, 2)) := by
  refine ⟨?_, ?_, ?_⟩
  · intro hopen hwin
    simp only [codeFetchCompose, Breaker.call, if_pos hopen,
      if_neg (not_lt.mpr hwin)]
    rfl
  · intro hclosed
    have hno : ¬ b.state = .opened := by
      rw [hclosed]
      intro hc
      cases hc
    constructor
    · intro e he
      simp only [codeFetchCompose, Breaker.call, if_neg hno, he,
        Breaker.runDownstream]
      exact onFailure_failureCount b now
    · intro v hv
      simp only [codeFetchCompose, Breaker.call, if_neg hno, hv,
        Breaker.runDownstream]
      rfl
  · intro hclosed hmax v h0 h1
    have hretry : retryWithBackoff (fun i => withTimeout (sched i)) maxRetries
        = (.ok v, 2) := by
      have h := retryGo_success (fun i => withTimeout (sched i)) 1 maxRetries
        0 v hmax
        (fun j hj => by
          have hj0 : j = 0 := by omega
          subst hj0
          exact ⟨.timeout, by simp [h0, withTimeout]⟩)
        (by simp [h1, withTimeout])
      simpa [retryWithBackoff] using h
    have hno : ¬ b.state = .opened := by
      rw [hclosed]
      intro hc
      cases hc
    simp only [codeFetchCompose, hretry, Breaker.call, if_neg hno,
      Breaker.runDownstream]
    rfl

/-- Witness for C5: with the breaker closed, a first attempt that times out
followed by a successful second attempt returns the success after two raw
invocations, and closes over `onSuccess`. -/
theorem breaker_outermost_witness :
    codeFetchCompose initBreaker 0
      (fun i => if i = 0 then TimedOutcome.timedOut
                else TimedOutcome.settled (Except.ok (5 : Nat))) 3
      = (initBreaker.onSuccess, Except.ok 5, 2) :=
  (breaker_outermost_timeout_innermost initBreaker 0
      (fun i => if i = 0 then TimedOutcome.timedOut
                else TimedOutcome.settled (Except.ok (5 : Nat))) 3).2.2
    rfl (by decide) 5 rfl rfl

/-! ## Claim C4 -/

/-- C4: code bug in the supersession discipline.  In the modelled
event-loop schedule, `resolve("paris")` is followed by `resolve("lyon")`
before the first settles; the service aborts paris's controller, but
`retryWithBackoff` catches the resulting `AbortError` and re-invokes the
fetch under the freshly installed (lyon) controller, so the superseded
paris request completes successfully after lyon's continuation has already
run, and paris's data — not lyon's — is the final surfaced `state.data`. -/
theorem superseded_result_overwrites_newer_state :
    c4FinalData = some "paris" ∧
    some "paris" ≠ (some "lyon" : Option String) := by
  exact ⟨rfl, by decide⟩

/-! ## Claim C9 -/

theorem mgrGet_counts (m : MgrState V) (now : Int) (k : String) :
    (m.get now k).2.hitCount + (m.get now k).2.missCount
      = m.hitCount + m.missCount + 1 := by
  rw [MgrState.get]
  cases h : m.lru.get now k with
  | mk r l =>
    cases r with
    | none => dsimp only; omega
    | some v => dsimp only; omega

theorem mgrRunGets_counts (now : Int) :
    ∀ (ks : List String) (m : MgrState V),
      (mgrRunGets m now ks).hitCount + (mgrRunGets m now ks).missCount
        = m.hitCount + m.missCount + ks.length
  | [], m => by rfl
  | k :: ks, m => by
    have h1 := mgrGet_counts m now k
    have h2 := mgrRunGets_counts now ks (m.get now k).2
    show (mgrRunGets (m.get now k).2 now ks).hitCount
        + (mgrRunGets (m.get now k).2 now ks).missCount
      = m.hitCount + m.missCount + (k :: ks).length
    rw [h2, h1]
    simp only [List.length_cons]
    omega

/-- C9: from a freshly reset counter pair, after any sequence of `get`
lookups the counters sum to the number of lookups, the reported hit rate is
`hitCount / (hitCount + missCount)` (and `0` when no lookups happened), and
`getStats().hitRate` reports the very same value — the `0.85` placeholder
of the inner store is overridden by the spread.  In particular, after
exactly 3 hits and 1 miss both report exactly `3/4 = 0.75`. -/
theorem cache_hit_rate_formula {V : Type} (L : LRUState V) (now : Int)
    (ks : List String) :
    ((mgrRunGets ⟨L, 0, 0⟩ now ks).hitCount
        + (mgrRunGets ⟨L, 0, 0⟩ now ks).missCount = ks.length) ∧
    ((mgrRunGets ⟨L, 0, 0⟩ now ks).getHitRate
      = if ks = [] then 0 else
          ((mgrRunGets ⟨L, 0, 0⟩ now ks).hitCount : ℚ)
            / (((mgrRunGets ⟨L, 0, 0⟩ now ks).hitCount : ℚ)
               + ((mgrRunGets ⟨L, 0, 0⟩ now ks).missCount : ℚ))) ∧
    (((mgrRunGets ⟨L, 0, 0⟩ now ks).getStats now).hitRate
      = (mgrRunGets ⟨L, 0, 0⟩ now ks).getHitRate) ∧
    threeHitsOneMiss.hitCount = 3 ∧ threeHitsOneMiss.missCount = 1 ∧
    threeHitsOneMiss.getHitRate = 3 / 4 ∧
    (threeHitsOneMiss.getStats 0).hitRate = 3 / 4 := by
  have hsum := mgrRunGets_counts now ks (⟨L, 0, 0⟩ : MgrState V)
  simp only [Nat.zero_add] at hsum
  have hrate : threeHitsOneMiss.getHitRate = 3 / 4 := by
    rw [MgrState.getHitRate, show threeHitsOneMiss.hitCount = 3 from by decide,
      show threeHitsOneMiss.missCount = 1 from by decide]
    norm_num
  refine ⟨hsum, ?_, rfl, by decide, by decide, hrate, hrate⟩
  by_cases hks : ks = []
  · subst hks
    rw [if_pos rfl]
    have h0 : (mgrRunGets ⟨L, 0, 0⟩ now []).hitCount
        + (mgrRunGets ⟨L, 0, 0⟩ now []).missCount = 0 := hsum
    rw [MgrState.getHitRate, if_neg (by omega)]
  · rw [if_neg hks]
    have hlen : ks.length ≠ 0 := fun hc => hks (List.length_eq_zero.mp hc)
    rw [MgrState.getHitRate, if_pos (by omega)]

/-! ## Claim C10 -/

/-- C10 counterexample: the tab character is not an ASCII letter, a space,
a hyphen, an apostrophe, a comma, or a period, yet a city name containing
it passes validation (the regex class `\s` also matches tabs, newlines and
other whitespace), so no `ValidationError` is thrown for it. -/
theorem validate_tab_counterexample :
    validateCityName "a\tb" = none ∧
    '\t' ∈ "a\tb".toList ∧
    isAsciiLetter '\t' = false ∧ '\t' ≠ ' ' ∧ '\t' ≠ '-' ∧
    '\t' ≠ '\'' ∧ '\t' ≠ ',' ∧ '\t' ≠ '.' := by
  decide

/-- C10 (amended): `fetchWeather` throws a `ValidationError` — before any
breaker interaction or raw fetch, leaving the breaker unchanged and the
invocation count at zero — exactly when the city is empty, longer than 100
characters, or contains a character outside the regex class
`[a-zA-Z\s\-',.]`; the whitespace class `\s` covers not only the space but
also tab, newline and the other Unicode whitespace characters, while
digits and accented letters are indeed rejected. -/
theorem validate_rejects_bad_city_before_network {α : Type} (b : Breaker)
    (now : Int) (city : String) (sched : Nat → TimedOutcome α) :
    (validateCityName city = none ↔
      (city ≠ "" ∧ city.length ≤ 100 ∧
        ∀ c ∈ city.toList, allowedCityChar c = true)) ∧
    (validateCityName city ≠ none →
      serviceFetchWeather b now city sched
        = (b, .error .validation, 0)) := by
  constructor
  · constructor
    · intro hnone
      rw [validateCityName] at hnone
      by_cases h1 : city = ""
      · rw [if_pos h1] at hnone
        exact absurd hnone (by simp)
      · rw [if_neg h1] at hnone
        by_cases h2 : city.length > 100
        · rw [if_pos h2] at hnone
          exact absurd hnone (by simp)
        · rw [if_neg h2] at hnone
          by_cases h3 : (!city.toList.all allowedCityChar) = true
          · rw [if_pos h3] at hnone
            exact absurd hnone (by simp)
          · refine ⟨h1, by omega, ?_⟩
            intro c hc
            have hall : city.toList.all allowedCityChar = true := by
              revert h3
              cases city.toList.all allowedCityChar <;> simp
            exact List.all_eq_true.mp hall c hc
    · rintro ⟨h1, h2, h3⟩
      have hall : city.toList.all allowedCityChar = true := by
        rw [List.all_eq_true]
        exact h3
      have hnotif : ¬ ((!city.toList.all allowedCityChar) = true) := by
        rw [hall]
        simp
      rw [validateCityName, if_neg h1, if_neg (by omega), if_neg hnotif]
  · intro h
    rw [serviceFetchWeather]
    cases hv : validateCityName city with
    | none => exact absurd hv h
    | some e => rfl

/-- Witness for C10: a city name containing a digit is rejected before the
pipeline runs — the breaker is returned unchanged and no raw fetch happens. -/
theorem validate_rejects_witness :
    serviceFetchWeather initBreaker 0 "Par1s"
      (fun _ => TimedOutcome.settled (Except.ok (0 : Nat)))
      = (initBreaker, Except.error JsError.validation, 0) :=
  (validate_rejects_bad_city_before_network initBreaker 0 "Par1s"
      (fun _ => TimedOutcome.settled (Except.ok (0 : Nat)))).2
    (by decide)

end WeatherCache
